import Mathlib

/-!
Verification of the keyword-qualification and cross-linking logic of the
SEO-agent repository (`seo_agent/services/keyword_research.py`,
`seo_agent/services/cross_linker.py`, `seo_agent/models/keyword.py`).

Python strings are modelled as `List Char`, Python `int` as `ℤ` (or `ℕ` where
the source guarantees non-negativity), Python `float` as `ℚ`.  The fuzzy
similarity metric (`rapidfuzz.fuzz.token_set_ratio`, an external library) is
modelled as an arbitrary function parameter `fuzzScore`.  `sorted(..., key=k,
reverse=True)` (a stable descending sort) is modelled by Mathlib's stable
`List.insertionSort` with the relation `fun a b => k b ≤ k a`, which is
extensionally the unique stable descending sort by `k`.
-/

/-- Convert a string literal to the `List Char` representation used throughout. -/
def chars (s : String) : List Char := s.toList

/-- Python `str.lower()` (ASCII model). -/
def lowerStr (s : List Char) : List Char := s.map Char.toLower

/-- Python `sorted(l, key, reverse=True)`: stable descending sort by `key`. -/
def sortDesc {α β : Type*} [LinearOrder β] (key : α → β) (l : List α) : List α :=
  List.insertionSort (fun a b => key b ≤ key a) l

/-! ## Keyword model (`seo_agent/models/keyword.py`) -/

/-- `KeywordMetrics` (pydantic model): metrics attached to a keyword. -/
structure KeywordMetrics where
  search_volume : ℤ
  keyword_difficulty : ℚ
  cpc : ℚ
  competition : ℚ
  competition_level : List Char
deriving DecidableEq

/-- `Keyword` (pydantic model). -/
structure Keyword where
  keyword : List Char
  metrics : KeywordMetrics
  source : List Char
  is_primary : Bool
deriving DecidableEq

/-- `Keyword.qualifies`: `search_volume >= min_volume and keyword_difficulty <= max_kd`. -/
def Keyword.qualifies (kw : Keyword) (min_volume : ℤ) (max_kd : ℚ) : Bool :=
  decide (min_volume ≤ kw.metrics.search_volume) &&
    decide (kw.metrics.keyword_difficulty ≤ max_kd)

/-! ## Keyword research service (`seo_agent/services/keyword_research.py`) -/

/-- Threshold configuration of `KeywordResearchService` (`min_volume`, `max_kd`). -/
structure KeywordResearchService where
  min_volume : ℤ
  max_kd : ℚ

/-- `KeywordResearchService.filter_keywords`: optional per-call thresholds default to
the service configuration; keeps the keywords that `qualify`. -/
def filter_keywords (svc : KeywordResearchService) (keywords : List Keyword)
    (min_volume : Option ℤ) (max_kd : Option ℚ) : List Keyword :=
  let min_vol := min_volume.getD svc.min_volume
  let max_difficulty := max_kd.getD svc.max_kd
  keywords.filter (fun kw => kw.qualifies min_vol max_difficulty)

/-- The inner `score` function of `KeywordResearchService.rank_keywords`:
`search_volume` when `keyword_difficulty == 0`, else `search_volume / (keyword_difficulty + 1)`. -/
def score (kw : Keyword) : ℚ :=
  if kw.metrics.keyword_difficulty = 0 then (kw.metrics.search_volume : ℚ)
  else (kw.metrics.search_volume : ℚ) / (kw.metrics.keyword_difficulty + 1)

/-- `KeywordResearchService.rank_keywords`: `sorted(keywords, key=score, reverse=True)`. -/
def rank_keywords (keywords : List Keyword) : List Keyword :=
  sortDesc score keywords

/-! ## Generic lemmas about the stable descending sort -/

theorem sortDesc_perm {α β : Type*} [LinearOrder β] (key : α → β) (l : List α) :
    List.Perm (sortDesc key l) l :=
  List.perm_insertionSort _ l

theorem sortDesc_pairwise {α β : Type*} [LinearOrder β] (key : α → β) (l : List α) :
    (sortDesc key l).Pairwise (fun a b => key b ≤ key a) := by
  haveI : IsTotal α (fun a b => key b ≤ key a) := ⟨fun a b => (le_total (key b) (key a))⟩
  haveI : IsTrans α (fun a b => key b ≤ key a) :=
    ⟨fun _ _ _ hab hbc => le_trans hbc hab⟩
  exact List.sorted_insertionSort _ l

theorem orderedInsert_filter_key {α β : Type*} [LinearOrder β] (key : α → β) (c : β)
    (x : α) (l : List α) :
    (List.orderedInsert (fun a b => key b ≤ key a) x l).filter (fun a => decide (key a = c)) =
      if key x = c then x :: l.filter (fun a => decide (key a = c))
      else l.filter (fun a => decide (key a = c)) := by
  induction l with
  | nil =>
    by_cases hx : key x = c <;> simp [List.orderedInsert, List.filter, hx]
  | cons y ys ih =>
    by_cases hyx : key y ≤ key x
    · have h1 : List.orderedInsert (fun a b => key b ≤ key a) x (y :: ys) = x :: y :: ys := by
        simp [List.orderedInsert, hyx]
      rw [h1]
      by_cases hx : key x = c <;> simp [List.filter_cons, hx]
    · have h1 : List.orderedInsert (fun a b => key b ≤ key a) x (y :: ys)
          = y :: List.orderedInsert (fun a b => key b ≤ key a) x ys := by
        simp [List.orderedInsert, hyx]
      rw [h1]
      have hxy : key x < key y := lt_of_not_le hyx
      by_cases hx : key x = c
      · have hy : ¬ key y = c := fun hy => absurd (hx.trans hy.symm) (ne_of_lt hxy)
        simp [List.filter_cons, hx, hy, ih]
      · by_cases hy : key y = c <;> simp [List.filter_cons, hx, hy, ih]

theorem sortDesc_filter_key {α β : Type*} [LinearOrder β] (key : α → β) (c : β)
    (l : List α) :
    (sortDesc key l).filter (fun a => decide (key a = c)) =
      l.filter (fun a => decide (key a = c)) := by
  induction l with
  | nil => rfl
  | cons x xs ih =>
    show (List.orderedInsert _ x (List.insertionSort _ xs)).filter _ = _
    rw [orderedInsert_filter_key]
    by_cases hx : key x = c <;> simp [hx, List.filter_cons]
    · exact ih
    · exact ih

/-! ## Cross-linker data model (`seo_agent/models/article.py`, `blog_post.py`) -/

/-- One entry of `Article.internal_links`: the dict
`{"title": ..., "url": ..., "anchor_text": ...}` built by `_insert_links`. -/
structure LinkRec where
  title : List Char
  url : List Char
  anchor_text : List Char
deriving DecidableEq

/-- `ExistingPost` (pydantic model), the fields read by the cross-linker. -/
structure ExistingPost where
  title : List Char
  url : List Char
  tags : List (List Char)
deriving DecidableEq

/-- `ArticleMetadata`, the fields read by the cross-linker. -/
structure ArticleMetadata where
  title : List Char
  primary_keyword : List Char
  secondary_keywords : List (List Char)
  word_count : ℕ
deriving DecidableEq

/-- `Article` (pydantic model). -/
structure Article where
  metadata : ArticleMetadata
  content : List Char
  images : List (List Char)
  cover_url : Option (List Char)
  cover_alt : Option (List Char)
  internal_links : List LinkRec
deriving DecidableEq

/-- Configuration of `CrossLinkerService` (`links_per_1k_words`, `min_similarity_score`). -/
structure CrossLinkerService where
  links_per_1k_words : ℚ
  min_similarity_score : ℚ

/-! ## Cross-linker service (`seo_agent/services/cross_linker.py`) -/

/-- Python `int()` on a float: truncation toward zero. -/
def pythonInt (q : ℚ) : ℤ := if 0 ≤ q then ⌊q⌋ else ⌈q⌉

/-- The target-link computation of `add_cross_links`:
`max(1, int((word_count / 1000) * links_per_1k_words))`. -/
def target_links (word_count : ℕ) (rate : ℚ) : ℤ :=
  max 1 (pythonInt ((word_count : ℚ) / 1000 * rate))

/-- `target_links` as a natural number (it is always at least 1, so `toNat` is exact);
used for list slicing. -/
def targetLinksCount (word_count : ℕ) (rate : ℚ) : ℕ :=
  (target_links word_count rate).toNat

/-- ASCII model of the regex class `\s` (whitespace). -/
def isSpaceChar (ch : Char) : Bool :=
  ch == ' ' || ch == '\t' || ch == '\n' || ch == '\r'

/-- ASCII model of the regex class `\w` (word characters). -/
def isWordChar (ch : Char) : Bool :=
  ch.isAlphanum || ch == '_'

/-- Python `str.strip()`: remove leading and trailing whitespace. -/
def stripChars (s : List Char) : List Char :=
  ((s.dropWhile isSpaceChar).reverse.dropWhile isSpaceChar).reverse

/-- Helper for `splitWords`: accumulates the current word (reversed). -/
def splitWordsAux : List Char → List Char → List (List Char)
  | [], acc => if acc.isEmpty then [] else [acc.reverse]
  | ch :: rest, acc =>
    if isSpaceChar ch then
      if acc.isEmpty then splitWordsAux rest [] else acc.reverse :: splitWordsAux rest []
    else splitWordsAux rest (ch :: acc)

/-- Python `str.split()`: split on whitespace runs, dropping empty pieces. -/
def splitWords (s : List Char) : List (List Char) := splitWordsAux s []

/-- Python `" ".join(pieces)`. -/
def joinSp (pieces : List (List Char)) : List Char := List.intercalate [' '] pieces

/-- The `skip_words` set of `_generate_anchor_candidates`. -/
def skipWords : List (List Char) :=
  [chars "how", chars "to", chars "the", chars "a", chars "an",
   chars "what", chars "why", chars "when", chars "where"]

/-- The n-word contiguous phrases of `_generate_anchor_candidates`, kept when the
first word (lowercased) is not a skip word. -/
def phrasesOfLen (words : List (List Char)) (n : ℕ) : List (List Char) :=
  (List.range (words.length + 1 - n)).filterMap fun i =>
    match words.drop i with
    | [] => none
    | w :: _ =>
      if lowerStr w ∈ skipWords then none
      else some (joinSp ((words.drop i).take n))

/-- `CrossLinkerService._generate_anchor_candidates`: the cleaned full title, the
3-word and 2-word windows (first word not a skip word), and single words longer
than 5 characters that are not skip words. -/
def generate_anchor_candidates (title : List Char) : List (List Char) :=
  let clean_title := stripChars (title.filter fun ch => isWordChar ch || isSpaceChar ch)
  let words := splitWords clean_title
  clean_title ::
    (phrasesOfLen words 3 ++ phrasesOfLen words 2 ++
      words.filter fun w => decide (5 < w.length) && decide (lowerStr w ∉ skipWords))

/-- Case-insensitive literal match of `anchor` at position `i` of `content`. -/
def matchesAt (anchor content : List Char) (i : ℕ) : Bool :=
  decide (i + anchor.length ≤ content.length) &&
    decide (lowerStr ((content.drop i).take anchor.length) = lowerStr anchor)

/-- The negative lookbehinds of the insertion pattern: the match must not be
immediately preceded by a `[` or `(` character. -/
def okBefore (content : List Char) (i : ℕ) : Bool :=
  if i = 0 then true
  else
    match content.get? (i - 1) with
    | some ch => !(ch == '[' || ch == '(')
    | none => true

/-- The negative lookaheads of the insertion pattern: the match must not be
immediately followed by a `]` or `)` character. -/
def okAfter (anchor content : List Char) (i : ℕ) : Bool :=
  match content.get? (i + anchor.length) with
  | some ch => !(ch == ']' || ch == ')')
  | none => true

/-- Fueled scan of `re.search`: try start positions `i, i+1, ...` in order. -/
def findMatchAux (anchor content : List Char) : ℕ → ℕ → Option ℕ
  | 0, _ => none
  | fuel + 1, i =>
    if matchesAt anchor content i && okBefore content i && okAfter anchor content i then some i
    else findMatchAux anchor content fuel (i + 1)

/-- `re.search(pattern, content, re.IGNORECASE)` for the pattern
`(?<!\[)(?<!\()(anchor)(?!\])(?!\))`: position of the leftmost occurrence of
`anchor` (case-insensitive) not immediately preceded by `[`/`(` and not
immediately followed by `]`/`)`. -/
def findMatch (anchor content : List Char) : Option ℕ :=
  findMatchAux anchor content (content.length + 1) 0

/-- The replacement step of `_insert_links`: replace `content[s : s+len]` by
`[matched-text](url)`, where the matched text keeps its original casing. -/
def mdInsert (c : List Char) (s len : ℕ) (url : List Char) : List Char :=
  c.take s ++
    ('[' :: ((c.drop s).take len ++ (']' :: ('(' :: (url ++ (')' :: c.drop (s + len)))))))

/-- The inner anchor loop of `_insert_links`: try anchor candidates in order and
link the first one that matches somewhere in the content. -/
def try_anchors (content url title : List Char) :
    List (List Char) → Option (List Char × LinkRec)
  | [] => none
  | anchor :: rest =>
    match findMatch anchor content with
    | some i =>
      some (mdInsert content i anchor.length url,
        ⟨title, url, (content.drop i).take anchor.length⟩)
    | none => try_anchors content url title rest

/-- `CrossLinkerService._insert_links`: one pass over the posts, threading the
modified content; each post inserts at most one link. -/
def insert_links : List ExistingPost → List Char → List Char × List LinkRec
  | [], content => (content, [])
  | p :: ps, content =>
    match try_anchors content p.url p.title (generate_anchor_candidates p.title) with
    | some x =>
      let rest := insert_links ps x.1
      (rest.1, x.2 :: rest.2)
    | none => insert_links ps content

/-- The text `f"{title} {primary_keyword} {' '.join(secondary_keywords)}".lower()`
matched against each post. -/
def articleText (m : ArticleMetadata) : List Char :=
  lowerStr (m.title ++ ' ' :: m.primary_keyword ++ ' ' :: joinSp m.secondary_keywords)

/-- The text `f"{post.title} {' '.join(post.tags)}".lower()` of one existing post. -/
def postText (p : ExistingPost) : List Char :=
  lowerStr (p.title ++ ' ' :: joinSp p.tags)

/-- The scoring loop of `_find_relevant_posts`: skip posts whose title equals the
article title case-insensitively, keep `(post, score)` pairs with score at least
`min_similarity_score`.  `fuzzScore` models `rapidfuzz.fuzz.token_set_ratio`. -/
def scoredPosts (fuzzScore : List Char → List Char → ℚ) (minSim : ℚ)
    (artText artTitleLower : List Char) : List ExistingPost → List (ExistingPost × ℚ)
  | [] => []
  | p :: ps =>
    if lowerStr p.title = artTitleLower then
      scoredPosts fuzzScore minSim artText artTitleLower ps
    else if minSim ≤ fuzzScore artText (postText p) then
      (p, fuzzScore artText (postText p)) :: scoredPosts fuzzScore minSim artText artTitleLower ps
    else scoredPosts fuzzScore minSim artText artTitleLower ps

/-- `CrossLinkerService._find_relevant_posts`: score, sort by score descending
(stable), take the top `max_links`, drop the scores. -/
def find_relevant_posts (fuzzScore : List Char → List Char → ℚ) (minSim : ℚ)
    (article : Article) (posts : List ExistingPost) (max_links : ℕ) : List ExistingPost :=
  (((sortDesc Prod.snd
      (scoredPosts fuzzScore minSim (articleText article.metadata)
        (lowerStr article.metadata.title) posts)).take max_links).map Prod.fst)

/-- `CrossLinkerService.add_cross_links` on a plain post list (a `ScrapedContent`
argument is unwrapped to its `posts` list before this logic runs). -/
def add_cross_links (fuzzScore : List Char → List Char → ℚ) (svc : CrossLinkerService)
    (article : Article) (posts : List ExistingPost) : Article :=
  if posts = [] then article
  else
    let target := targetLinksCount article.metadata.word_count svc.links_per_1k_words
    let relevant_posts := find_relevant_posts fuzzScore svc.min_similarity_score
      article posts (target + 2)
    let result := insert_links (relevant_posts.take target) article.content
    { article with content := result.1, internal_links := result.2 }

/-! ## Propositional form of the insertion guards, and the insertion-step relation -/

/-- Propositional reading of the negative lookbehinds: the character before
position `s` (if any) is neither `[` nor `(`. -/
def okBeforeP (c : List Char) (s : ℕ) : Prop :=
  s = 0 ∨ ∀ ch, c.get? (s - 1) = some ch → ch ≠ '[' ∧ ch ≠ '('

/-- Propositional reading of the negative lookaheads: the character at position
`e` (if any) is neither `]` nor `)`. -/
def okAfterP (c : List Char) (e : ℕ) : Prop :=
  ∀ ch, c.get? e = some ch → ch ≠ ']' ∧ ch ≠ ')'

/-- Deleting the markup of a link inserted at position `s` with anchor length
`len` and URL length `ulen`: drops the `[`, the `](`, the URL and the `)`,
keeping the visible anchor text. -/
def mdRemove (c : List Char) (s len ulen : ℕ) : List Char :=
  c.take s ++ ((c.drop (s + 1)).take len) ++ c.drop (s + 1 + len + 2 + ulen + 1)

/-- One link insertion performed by `_insert_links`: some in-bounds span, whose
borders satisfy the lookaround guards, is replaced by `[span](url)`; every
character outside the span is unchanged, and deleting the inserted markup
recovers the previous content exactly. -/
def LinkInsertionStep (c c' : List Char) : Prop :=
  ∃ s len url, s + len ≤ c.length ∧ okBeforeP c s ∧ okAfterP c (s + len) ∧
    c' = mdInsert c s len url ∧ mdRemove c' s len url.length = c

theorem matchesAt_le {anchor content : List Char} {i : ℕ}
    (h : matchesAt anchor content i = true) : i + anchor.length ≤ content.length := by
  unfold matchesAt at h
  simp only [Bool.and_eq_true, decide_eq_true_eq] at h
  exact h.1

theorem okBefore_prop {content : List Char} {i : ℕ}
    (h : okBefore content i = true) : okBeforeP content i := by
  by_cases hi : i = 0
  · exact Or.inl hi
  · refine Or.inr fun ch hch => ?_
    unfold okBefore at h
    rw [if_neg hi, hch] at h
    simp only [Bool.not_eq_true', Bool.or_eq_false_iff, beq_eq_false_iff_ne] at h
    exact h

theorem okAfter_prop {anchor content : List Char} {i : ℕ}
    (h : okAfter anchor content i = true) : okAfterP content (i + anchor.length) := by
  intro ch hch
  unfold okAfter at h
  rw [hch] at h
  simp only [Bool.not_eq_true', Bool.or_eq_false_iff, beq_eq_false_iff_ne] at h
  exact h

theorem findMatchAux_some {anchor content : List Char} :
    ∀ fuel i j, findMatchAux anchor content fuel i = some j →
      matchesAt anchor content j = true ∧ okBefore content j = true ∧
        okAfter anchor content j = true := by
  intro fuel
  induction fuel with
  | zero => intro i j h; simp [findMatchAux] at h
  | succ n ih =>
    intro i j h
    rw [findMatchAux] at h
    by_cases hc : (matchesAt anchor content i && okBefore content i &&
        okAfter anchor content i) = true
    · rw [if_pos hc] at h
      cases h
      simp only [Bool.and_eq_true] at hc
      exact ⟨hc.1.1, hc.1.2, hc.2⟩
    · rw [if_neg hc] at h
      exact ih (i + 1) j h

theorem findMatch_some {anchor content : List Char} {j : ℕ}
    (h : findMatch anchor content = some j) :
    matchesAt anchor content j = true ∧ okBefore content j = true ∧
      okAfter anchor content j = true :=
  findMatchAux_some _ 0 j h

theorem mdRemove_mdInsert (c : List Char) (s len : ℕ) (url : List Char)
    (h : s + len ≤ c.length) :
    mdRemove (mdInsert c s len url) s len url.length = c := by
  have hs : s ≤ c.length := le_trans (Nat.le_add_right s len) h
  have hAlen : (c.take s).length = s := by
    rw [List.length_take]; omega
  have hBlen : ((c.drop s).take len).length = len := by
    rw [List.length_take, List.length_drop]; omega
  have h1 : (mdInsert c s len url).take s = c.take s := by
    unfold mdInsert
    exact List.take_left' hAlen
  have h2 : ((mdInsert c s len url).drop (s + 1)).take len = (c.drop s).take len := by
    have hg2 : mdInsert c s len url
        = (c.take s ++ ['[']) ++
            ((c.drop s).take len ++ (']' :: '(' :: (url ++ ')' :: c.drop (s + len)))) := by
      unfold mdInsert
      simp
    rw [hg2, List.drop_left' (by rw [List.length_append, hAlen]; rfl),
      List.take_left' hBlen]
  have h3 : (mdInsert c s len url).drop (s + 1 + len + 2 + url.length + 1)
      = c.drop (s + len) := by
    have hg3 : mdInsert c s len url
        = (c.take s ++ '[' :: ((c.drop s).take len ++ ']' :: '(' :: url ++ [')']))
            ++ c.drop (s + len) := by
      unfold mdInsert
      simp
    rw [hg3, List.drop_left']
    simp only [List.length_append, List.length_cons, hAlen, hBlen, List.length_nil]
    omega
  unfold mdRemove
  rw [h1, h2, h3]
  have hBC : (c.drop s).take len ++ c.drop (s + len) = c.drop s := by
    have hdd : c.drop (s + len) = (c.drop s).drop len := by
      rw [List.drop_drop, Nat.add_comm]
    rw [hdd, List.take_append_drop]
  rw [List.append_assoc, hBC, List.take_append_drop]

theorem try_anchors_step {c url title : List Char} :
    ∀ anchors c' link, try_anchors c url title anchors = some (c', link) →
      (∃ s len, s + len ≤ c.length ∧ okBeforeP c s ∧ okAfterP c (s + len) ∧
        c' = mdInsert c s len url) ∧ link.title = title ∧ link.url = url := by
  intro anchors
  induction anchors with
  | nil => intro c' link h; simp [try_anchors] at h
  | cons a rest ih =>
    intro c' link h
    rw [try_anchors] at h
    cases hf : findMatch a c with
    | none =>
      rw [hf] at h
      exact ih c' link h
    | some i =>
      rw [hf] at h
      obtain ⟨hm, hb, ha⟩ := findMatch_some hf
      have hle : i + a.length ≤ c.length := matchesAt_le hm
      cases h
      exact ⟨⟨i, a.length, hle, okBefore_prop hb, okAfter_prop ha, rfl⟩, rfl, rfl⟩

theorem try_anchors_insertionStep {c url title : List Char} {anchors : List (List Char)}
    {c' : List Char} {link : LinkRec}
    (h : try_anchors c url title anchors = some (c', link)) :
    LinkInsertionStep c c' := by
  obtain ⟨⟨s, len, hle, hb, ha, hc⟩, -, -⟩ := try_anchors_step anchors c' link h
  exact ⟨s, len, url, hle, hb, ha, hc, hc ▸ mdRemove_mdInsert c s len url hle⟩

theorem insert_links_chain (posts : List ExistingPost) :
    ∀ c, Relation.ReflTransGen LinkInsertionStep c (insert_links posts c).1 := by
  induction posts with
  | nil => intro c; exact Relation.ReflTransGen.refl
  | cons p ps ih =>
    intro c
    cases h : try_anchors c p.url p.title (generate_anchor_candidates p.title) with
    | none =>
      have heq : insert_links (p :: ps) c = insert_links ps c := by
        rw [insert_links, h]
      rw [heq]
      exact ih c
    | some x =>
      obtain ⟨c2, link2⟩ := x
      have heq : (insert_links (p :: ps) c).1 = (insert_links ps c2).1 := by
        rw [insert_links, h]
      rw [heq]
      exact Relation.ReflTransGen.head (try_anchors_insertionStep h) (ih c2)

theorem insert_links_link_origin (posts : List ExistingPost) :
    ∀ c l, l ∈ (insert_links posts c).2 →
      ∃ p, p ∈ posts ∧ l.title = p.title ∧ l.url = p.url := by
  induction posts with
  | nil => intro c l h; simp [insert_links] at h
  | cons p ps ih =>
    intro c l h
    cases hta : try_anchors c p.url p.title (generate_anchor_candidates p.title) with
    | none =>
      have heq : insert_links (p :: ps) c = insert_links ps c := by
        rw [insert_links, hta]
      rw [heq] at h
      obtain ⟨q, hq, h1, h2⟩ := ih c l h
      exact ⟨q, List.mem_cons_of_mem p hq, h1, h2⟩
    | some x =>
      obtain ⟨c2, link2⟩ := x
      have heq : (insert_links (p :: ps) c).2 = link2 :: (insert_links ps c2).2 := by
        rw [insert_links, hta]
      rw [heq] at h
      rcases List.mem_cons.mp h with h | h
      · obtain ⟨-, ht, hu⟩ := try_anchors_step _ c2 link2 hta
        exact ⟨p, List.mem_cons_self p ps, h ▸ ht, h ▸ hu⟩
      · obtain ⟨q, hq, h1, h2⟩ := ih c2 l h
        exact ⟨q, List.mem_cons_of_mem p hq, h1, h2⟩

theorem insert_links_pairs_sublist (posts : List ExistingPost) :
    ∀ c, List.Sublist ((insert_links posts c).2.map fun l => (l.title, l.url))
      (posts.map fun p => (p.title, p.url)) := by
  induction posts with
  | nil => intro c; simp [insert_links]
  | cons p ps ih =>
    intro c
    cases hta : try_anchors c p.url p.title (generate_anchor_candidates p.title) with
    | none =>
      have heq : insert_links (p :: ps) c = insert_links ps c := by
        rw [insert_links, hta]
      rw [heq, List.map_cons]
      exact List.Sublist.cons _ (ih c)
    | some x =>
      obtain ⟨c2, link2⟩ := x
      have heq : (insert_links (p :: ps) c).2 = link2 :: (insert_links ps c2).2 := by
        rw [insert_links, hta]
      rw [heq, List.map_cons, List.map_cons]
      obtain ⟨-, ht, hu⟩ := try_anchors_step _ c2 link2 hta
      rw [ht, hu]
      exact List.Sublist.cons₂ _ (ih c2)

theorem scoredPosts_mem {f : List Char → List Char → ℚ} {minSim : ℚ}
    {artText artTitleLower : List Char} :
    ∀ posts p x, (p, x) ∈ scoredPosts f minSim artText artTitleLower posts →
      p ∈ posts ∧ lowerStr p.title ≠ artTitleLower := by
  intro posts
  induction posts with
  | nil => intro p x h; simp [scoredPosts] at h
  | cons q qs ih =>
    intro p x h
    rw [scoredPosts] at h
    by_cases hskip : lowerStr q.title = artTitleLower
    · rw [if_pos hskip] at h
      obtain ⟨hp, hne⟩ := ih p x h
      exact ⟨List.mem_cons_of_mem q hp, hne⟩
    · rw [if_neg hskip] at h
      by_cases hsim : minSim ≤ f artText (postText q)
      · rw [if_pos hsim] at h
        rcases List.mem_cons.mp h with h | h
        · injection h with h1 h2
          exact ⟨h1 ▸ List.mem_cons_self q qs, h1 ▸ hskip⟩
        · obtain ⟨hp, hne⟩ := ih p x h
          exact ⟨List.mem_cons_of_mem q hp, hne⟩
      · rw [if_neg hsim] at h
        obtain ⟨hp, hne⟩ := ih p x h
        exact ⟨List.mem_cons_of_mem q hp, hne⟩

theorem scoredPosts_map_url_sublist {f : List Char → List Char → ℚ} {minSim : ℚ}
    {artText artTitleLower : List Char} :
    ∀ posts, List.Sublist
      ((scoredPosts f minSim artText artTitleLower posts).map fun pr => pr.1.url)
      (posts.map ExistingPost.url) := by
  intro posts
  induction posts with
  | nil => simp [scoredPosts]
  | cons q qs ih =>
    rw [scoredPosts, List.map_cons]
    by_cases hskip : lowerStr q.title = artTitleLower
    · rw [if_pos hskip]
      exact List.Sublist.cons _ ih
    · rw [if_neg hskip]
      by_cases hsim : minSim ≤ f artText (postText q)
      · rw [if_pos hsim, List.map_cons]
        exact List.Sublist.cons₂ _ ih
      · rw [if_neg hsim]
        exact List.Sublist.cons _ ih

theorem find_relevant_posts_mem {f : List Char → List Char → ℚ} {minSim : ℚ}
    {article : Article} {posts : List ExistingPost} {k : ℕ} {p : ExistingPost}
    (h : p ∈ find_relevant_posts f minSim article posts k) :
    p ∈ posts ∧ lowerStr p.title ≠ lowerStr article.metadata.title := by
  unfold find_relevant_posts at h
  obtain ⟨pr, hpr, hfst⟩ := List.mem_map.mp h
  have hpr2 : pr ∈ sortDesc Prod.snd
      (scoredPosts f minSim (articleText article.metadata)
        (lowerStr article.metadata.title) posts) :=
    List.mem_of_mem_take hpr
  have hpr3 : pr ∈ scoredPosts f minSim (articleText article.metadata)
      (lowerStr article.metadata.title) posts :=
    (sortDesc_perm _ _).mem_iff.mp hpr2
  obtain ⟨hp, hne⟩ := scoredPosts_mem posts pr.1 pr.2 (by simpa using hpr3)
  exact ⟨hfst ▸ hp, hfst ▸ hne⟩

theorem add_cross_links_urls_subperm (f : List Char → List Char → ℚ)
    (svc : CrossLinkerService) (article : Article) (posts : List ExistingPost)
    (hne : posts ≠ []) :
    List.Subperm ((add_cross_links f svc article posts).internal_links.map LinkRec.url)
      (posts.map ExistingPost.url) := by
  rw [add_cross_links, if_neg hne]
  set n := targetLinksCount article.metadata.word_count svc.links_per_1k_words with hn
  set relevant := find_relevant_posts f svc.min_similarity_score article posts (n + 2)
    with hrel
  show List.Subperm ((insert_links (relevant.take n) article.content).2.map LinkRec.url) _
  have h1 : List.Sublist
      ((insert_links (relevant.take n) article.content).2.map LinkRec.url)
      ((relevant.take n).map ExistingPost.url) := by
    have := insert_links_pairs_sublist (relevant.take n) article.content
    have hmapped := List.Sublist.map Prod.snd this
    simpa [List.map_map, Function.comp] using hmapped
  have h2 : List.Sublist ((relevant.take n).map ExistingPost.url)
      (relevant.map ExistingPost.url) :=
    List.Sublist.map _ (List.take_sublist n relevant)
  have h3 : List.Perm
      ((sortDesc Prod.snd (scoredPosts f svc.min_similarity_score
          (articleText article.metadata) (lowerStr article.metadata.title) posts)).map
        fun pr => pr.1.url)
      ((scoredPosts f svc.min_similarity_score (articleText article.metadata)
          (lowerStr article.metadata.title) posts).map fun pr => pr.1.url) :=
    List.Perm.map _ (sortDesc_perm _ _)
  have h4 : List.Sublist (relevant.map ExistingPost.url)
      ((sortDesc Prod.snd (scoredPosts f svc.min_similarity_score
          (articleText article.metadata) (lowerStr article.metadata.title) posts)).map
        fun pr => pr.1.url) := by
    rw [hrel]
    unfold find_relevant_posts
    rw [List.map_map]
    exact List.Sublist.map _ (List.take_sublist _ _)
  have h5 := @scoredPosts_map_url_sublist f svc.min_similarity_score
    (articleText article.metadata) (lowerStr article.metadata.title) posts
  exact ((((h1.trans h2).subperm).trans
    ((h4.subperm).trans (h3.subperm))).trans (h5.subperm))

/-! ## Auxiliary predicate and concrete instances used by the claim theorems -/

/-- Fueled scan for the first occurrence of a character at or after position `i`. -/
def findCharFromAux (c : List Char) (ch : Char) : ℕ → ℕ → Option ℕ
  | 0, _ => none
  | fuel + 1, i =>
    match c.get? i with
    | none => none
    | some x => if x = ch then some i else findCharFromAux c ch fuel (i + 1)

/-- First position `≥ i` holding character `ch`, if any. -/
def findCharFrom (c : List Char) (ch : Char) (i : ℕ) : Option ℕ :=
  findCharFromAux c ch (c.length + 1) i

/-- The span `[s, e)` of `c` lies strictly inside the text part of a Markdown
link `[text](url)` already present in `c`: some `[` opens before `s`, its first
closing `]` comes at or after `e` and is followed by `(` with a later `)`. -/
def insideMdLinkText (c : List Char) (s e : ℕ) : Bool :=
  (List.range s).any fun i =>
    (c.get? i == some '[') &&
      (match findCharFrom c ']' (i + 1) with
       | some k =>
         decide (e ≤ k) && (c.get? (k + 1) == some '(') &&
           (match findCharFrom c ')' (k + 2) with
            | some _ => true
            | none => false)
       | none => false)

/-- Unfolding equation for `add_cross_links` on a non-empty corpus, with the
target-link count supplied as a pre-computed numeral (the rational arithmetic
inside `targetLinksCount` does not reduce by `decide`). -/
theorem add_cross_links_eval (fuzzScore : List Char → List Char → ℚ)
    (svc : CrossLinkerService) (article : Article) (posts : List ExistingPost)
    (n : ℕ) (hne : posts ≠ [])
    (h : targetLinksCount article.metadata.word_count svc.links_per_1k_words = n) :
    add_cross_links fuzzScore svc article posts =
      { article with
        content := (insert_links
          ((find_relevant_posts fuzzScore svc.min_similarity_score article posts (n + 2)).take n)
          article.content).1,
        internal_links := (insert_links
          ((find_relevant_posts fuzzScore svc.min_similarity_score article posts (n + 2)).take n)
          article.content).2 } := by
  rw [add_cross_links, if_neg hne, h]

/-- The default `CrossLinkerService` configuration: `links_per_1k_words = 3.5`,
`min_similarity_score = 60`. -/
def dftLinker : CrossLinkerService := ⟨7/2, 60⟩

/-- A maximal similarity score (`token_set_ratio` is scaled 0–100). -/
def f100 : List Char → List Char → ℚ := fun _ _ => 100

/-- The default `KeywordResearchService` configuration. -/
def dftResearch : KeywordResearchService := ⟨5000, 30⟩

theorem targetLinksCount_2000 : targetLinksCount 2000 (7/2) = 7 := by
  have h1 : ((2000:ℕ):ℚ) / 1000 * (7/2) = 7 := by norm_num
  unfold targetLinksCount target_links pythonInt
  rw [h1]
  norm_num
  decide

def artC2 : Article :=
  { metadata := ⟨chars "Alpha", chars "kw", [], 2000⟩,
    content := chars "zebra guide and orange turtle",
    images := [], cover_url := none, cover_alt := none, internal_links := [] }

def pZebra : ExistingPost := ⟨chars "Zebra Guide", chars "u", []⟩

def pTurtle : ExistingPost := ⟨chars "Orange Turtle", chars "u", []⟩

def artC3 : Article :=
  { metadata := ⟨chars "Alpha", chars "kw", [], 2000⟩,
    content := chars "[big zebra guide tour](http://a)",
    images := [], cover_url := none, cover_alt := none, internal_links := [] }

def artC4 : Article :=
  { metadata := ⟨chars "Alpha", chars "kw", [], 1200⟩,
    content := chars "hello",
    images := [], cover_url := none, cover_alt := none,
    internal_links := [⟨chars "t", chars "u", chars "a"⟩] }

/-- A keyword whose difficulty `120` lies outside the documented `[0,100]` domain. -/
def kwOutside : Keyword := ⟨chars "a", ⟨0, 120, 0, 0, []⟩, chars "s", false⟩

/-- A keyword inside the documented domain. -/
def kwInside : Keyword := ⟨chars "b", ⟨1000, 50, 0, 0, []⟩, chars "s", false⟩

/-- A keyword with volume 300 and difficulty 2. -/
def kwScore : Keyword := ⟨chars "k", ⟨300, 2, 0, 0, []⟩, chars "s", false⟩

/-! ## Claim theorems -/

/-- C1 counterexample: the claim says the target-link count rounds
`(word_count / 1000) * links_per_1k_words` to the nearest integer, but at
`word_count = 500` with the default rate `3.5` the code computes
`max(1, int(1.75)) = 1` while the claimed formula gives `max(1, round(1.75)) = 2`. -/
theorem target_links_truncates_not_rounds :
    target_links 500 (7/2) = 1 ∧
      max 1 (round (((500:ℕ):ℚ) / 1000 * (7/2))) = 2 ∧ (1:ℤ) ≠ 2 := by
  refine ⟨?_, ?_, by decide⟩
  · have h1 : ((500:ℕ):ℚ) / 1000 * (7/2) = 7/4 := by norm_num
    unfold target_links pythonInt
    rw [h1]
    norm_num
  · have h1 : ((500:ℕ):ℚ) / 1000 * (7/2) = 7/4 := by norm_num
    rw [h1]
    norm_num [round_eq]

/-- C1 (amended): for every word count and non-negative rate,
`add_cross_links` computes `target_links = max(1, ⌊(word_count / 1000) * rate⌋)`
(truncation, not round-to-nearest), and an article with `word_count = 0` still
gets `target_links = 1`. -/
theorem target_links_floor_formula (wc : ℕ) (rate : ℚ) (h : 0 ≤ rate) :
    target_links wc rate = max 1 ⌊(wc : ℚ) / 1000 * rate⌋ ∧
      target_links 0 rate = 1 := by
  constructor
  · unfold target_links pythonInt
    rw [if_pos (by positivity)]
  · unfold target_links pythonInt
    norm_num

/-- C1 witness: the amended formula evaluated at `word_count = 3000`, rate `4`. -/
theorem target_links_floor_formula_witness :
    target_links 3000 4 = max 1 ⌊((3000:ℕ):ℚ) / 1000 * 4⌋ ∧
      target_links 0 4 = 1 :=
  target_links_floor_formula 3000 4 (by decide)

/-- C4 counterexample: on an empty corpus `add_cross_links` returns the article
as-is, so an article whose `internal_links` was already non-empty comes back
with that same non-empty list, not with `[]` as the claim states. -/
theorem empty_corpus_keeps_existing_links :
    (add_cross_links f100 dftLinker artC4 []).internal_links
        = [⟨chars "t", chars "u", chars "a"⟩] ∧
      (add_cross_links f100 dftLinker artC4 []).internal_links ≠ [] := by
  constructor
  · decide
  · decide

/-- C4 (amended): on an empty post corpus `add_cross_links` returns the article
completely unchanged (in particular the content is unchanged and
`internal_links` keeps its input value, which is `[]` whenever it was empty on
input); no error is raised — the function is total. -/
theorem add_cross_links_empty_corpus (f : List Char → List Char → ℚ)
    (svc : CrossLinkerService) (article : Article) :
    add_cross_links f svc article [] = article := by
  rw [add_cross_links, if_pos rfl]

/-- C5: `filter_keywords` returns exactly the input elements, in input order,
whose `search_volume ≥ min_volume` and `keyword_difficulty ≤ max_difficulty`
(both bounds inclusive, resolved against the service defaults when not given);
it is a sublist of the input and maps the empty list to the empty list. -/
theorem filter_keywords_spec (svc : KeywordResearchService) (kws : List Keyword)
    (mv : Option ℤ) (mk : Option ℚ) :
    filter_keywords svc kws mv mk
        = kws.filter (fun kw => decide (mv.getD svc.min_volume ≤ kw.metrics.search_volume ∧
            kw.metrics.keyword_difficulty ≤ mk.getD svc.max_kd)) ∧
      List.Sublist (filter_keywords svc kws mv mk) kws ∧
      filter_keywords svc [] mv mk = [] := by
  refine ⟨?_, List.filter_sublist kws, rfl⟩
  unfold filter_keywords Keyword.qualifies
  show List.filter _ kws = List.filter _ kws
  refine List.filter_congr fun kw hkw => ?_
  exact (Bool.decide_and _ _).symm

/-- C6: the ranking score equals `search_volume / (keyword_difficulty + 1)` for
non-negative inputs (in particular it equals the raw volume at difficulty 0),
and `rank_keywords` sorts its output descending by that score. -/
theorem rank_score_formula (kws : List Keyword) (kw : Keyword)
    (h1 : 0 ≤ kw.metrics.search_volume) (h2 : 0 ≤ kw.metrics.keyword_difficulty) :
    score kw = (kw.metrics.search_volume : ℚ) / (kw.metrics.keyword_difficulty + 1) ∧
      (kw.metrics.keyword_difficulty = 0 → score kw = (kw.metrics.search_volume : ℚ)) ∧
      (rank_keywords kws).Pairwise (fun a b => score b ≤ score a) := by
  refine ⟨?_, ?_, sortDesc_pairwise score kws⟩
  · by_cases hkd : kw.metrics.keyword_difficulty = 0
    · rw [score, if_pos hkd, hkd]
      norm_num
    · rw [score, if_neg hkd]
  · intro h0
    rw [score, if_pos h0]

/-- C6 witness: the score formula evaluated at a keyword with volume 300 and
difficulty 2, ranked in a singleton list. -/
theorem rank_score_formula_witness :
    score kwScore = (kwScore.metrics.search_volume : ℚ) / (kwScore.metrics.keyword_difficulty + 1) ∧
      (kwScore.metrics.keyword_difficulty = 0 → score kwScore = (kwScore.metrics.search_volume : ℚ)) ∧
      (rank_keywords [kwScore]).Pairwise (fun a b => score b ≤ score a) :=
  rank_score_formula [kwScore] kwScore (by decide) (by decide)

/-- C7: `rank_keywords` returns a permutation of its input, and the sort is
stable: for every score value, the sublist of elements with that score is
unchanged, so equal-score elements keep their original relative order. -/
theorem rank_keywords_perm_stable (kws : List Keyword) :
    List.Perm (rank_keywords kws) kws ∧
      ∀ c : ℚ, (rank_keywords kws).filter (fun kw => decide (score kw = c))
        = kws.filter (fun kw => decide (score kw = c)) :=
  ⟨sortDesc_perm score kws, fun c => sortDesc_filter_key score c kws⟩

/-- C9 counterexample: no `InvalidThreshold` validation exists; a call with
`min_volume = -1 < 0` and `max_difficulty = 150 ∉ [0,100]` is applied silently
as ordinary comparisons and returns a keyword whose difficulty `120` is itself
outside the documented domain, instead of rejecting the thresholds. -/
theorem filter_accepts_invalid_thresholds :
    filter_keywords dftResearch [kwOutside] (some (-1)) (some 150) = [kwOutside] := by
  decide

/-- C9 (amended): out-of-domain thresholds are silently applied as ordinary
inclusive comparisons, never rejected: with `min_volume = -1` and
`max_difficulty = 150`, every keyword inside the documented metric domain
passes the filter unchanged. -/
theorem filter_no_threshold_validation (svc : KeywordResearchService)
    (kws : List Keyword)
    (h : ∀ kw ∈ kws, 0 ≤ kw.metrics.search_volume ∧ kw.metrics.keyword_difficulty ≤ 100) :
    filter_keywords svc kws (some (-1)) (some 150) = kws := by
  unfold filter_keywords
  rw [List.filter_eq_self]
  intro kw hkw
  obtain ⟨h1, h2⟩ := h kw hkw
  unfold Keyword.qualifies
  simp only [Option.getD_some, Bool.and_eq_true, decide_eq_true_eq]
  exact ⟨le_trans (by norm_num) h1, le_trans h2 (by norm_num)⟩

/-- C9 witness: the amended statement evaluated on a singleton in-domain list. -/
theorem filter_no_threshold_validation_witness :
    filter_keywords dftResearch [kwInside] (some (-1)) (some 150) = [kwInside] :=
  filter_no_threshold_validation dftResearch [kwInside] (by decide)

/-- C2 counterexample: two distinct posts sharing the destination URL `u` both
get linked into one article, so the returned `internal_links` contains two
entries with the same URL — the claimed pairwise distinctness fails. -/
theorem cross_linker_duplicate_urls :
    (add_cross_links f100 dftLinker artC2 [pZebra, pTurtle]).internal_links.map LinkRec.url
        = [chars "u", chars "u"] ∧
      ¬ ((add_cross_links f100 dftLinker artC2 [pZebra, pTurtle]).internal_links.map
          LinkRec.url).Nodup := by
  have he := add_cross_links_eval f100 dftLinker artC2 [pZebra, pTurtle] 7 (by decide)
    (by exact targetLinksCount_2000)
  constructor
  · rw [he]; decide
  · rw [he]; decide

/-- C2 (amended): each entry of a non-empty post corpus contributes at most one
inserted link — the multiset of inserted URLs embeds into the corpus URLs — so
the inserted links have pairwise distinct URLs whenever the corpus URLs are
pairwise distinct (which the original claim's duplicate-URL corpora violate). -/
theorem cross_linker_url_subperm (f : List Char → List Char → ℚ)
    (svc : CrossLinkerService) (article : Article) (posts : List ExistingPost)
    (hne : posts ≠ []) :
    List.Subperm ((add_cross_links f svc article posts).internal_links.map LinkRec.url)
        (posts.map ExistingPost.url) ∧
      ((posts.map ExistingPost.url).Nodup →
        ((add_cross_links f svc article posts).internal_links.map LinkRec.url).Nodup) := by
  have hsp := add_cross_links_urls_subperm f svc article posts hne
  refine ⟨hsp, fun hnd => ?_⟩
  obtain ⟨l, hperm, hsub⟩ := hsp
  exact hperm.nodup_iff.mp (List.Nodup.sublist hsub hnd)

/-- C2 witness: a singleton corpus with a unique URL yields links with
pairwise distinct URLs. -/
theorem cross_linker_url_subperm_witness :
    ((add_cross_links f100 dftLinker artC2 [pZebra]).internal_links.map LinkRec.url).Nodup :=
  (cross_linker_url_subperm f100 dftLinker artC2 [pZebra] (by decide)).2 (by decide)

/-- C3 counterexample: the anchor `zebra guide` occurs at span `[5, 16)` of the
content, strictly inside the text of the existing Markdown link
`[big zebra guide tour](http://a)`; the lookarounds only reject matches
immediately adjacent to brackets, so the occurrence is replaced and a nested
link is produced. -/
theorem cross_linker_links_inside_existing_link :
    findMatch (chars "Zebra Guide") artC3.content = some 5 ∧
      insideMdLinkText artC3.content 5 16 = true ∧
      (add_cross_links f100 dftLinker artC3 [pZebra]).content
        = chars "[big [zebra guide](u) tour](http://a)" ∧
      (add_cross_links f100 dftLinker artC3 [pZebra]).internal_links
        = [⟨chars "Zebra Guide", chars "u", chars "zebra guide"⟩] := by
  have he := add_cross_links_eval f100 dftLinker artC3 [pZebra] 7 (by decide)
    (by exact targetLinksCount_2000)
  refine ⟨by decide, by decide, ?_, ?_⟩
  · rw [he]; decide
  · rw [he]; decide

/-- C3 (amended): every insertion made by `add_cross_links` replaces a span of
the then-current content whose borders satisfy the lookaround guards — the
match is not immediately preceded by `[` or `(` and not immediately followed by
`]` or `)`; an occurrence strictly inside an existing link's text (not adjacent
to its brackets) can still be replaced. -/
theorem cross_linker_insertion_guarded (f : List Char → List Char → ℚ)
    (svc : CrossLinkerService) (article : Article) (posts : List ExistingPost) :
    Relation.ReflTransGen LinkInsertionStep article.content
      (add_cross_links f svc article posts).content := by
  by_cases hne : posts = []
  · subst hne
    rw [add_cross_links, if_pos rfl]
  · rw [add_cross_links, if_neg hne]
    exact insert_links_chain _ article.content

/-- C8: a post whose title equals the article title case-insensitively is never
selected by `_find_relevant_posts` and never produces an inserted link: every
selected post, and every post an inserted link originates from, has a title
that differs case-insensitively from the article title. -/
theorem cross_linker_excludes_self_posts (f : List Char → List Char → ℚ)
    (svc : CrossLinkerService) (article : Article) (posts : List ExistingPost) (k : ℕ) :
    (∀ p, p ∈ find_relevant_posts f svc.min_similarity_score article posts k →
        p ∈ posts ∧ lowerStr p.title ≠ lowerStr article.metadata.title) ∧
      (posts ≠ [] → ∀ l, l ∈ (add_cross_links f svc article posts).internal_links →
        ∃ p, p ∈ posts ∧ l.title = p.title ∧
          lowerStr p.title ≠ lowerStr article.metadata.title) := by
  constructor
  · intro p hp
    exact find_relevant_posts_mem hp
  · intro hne l hl
    rw [add_cross_links, if_neg hne] at hl
    obtain ⟨p, hp, ht, hu⟩ := insert_links_link_origin _ _ _ hl
    have hp2 : p ∈ find_relevant_posts f svc.min_similarity_score article posts
        (targetLinksCount article.metadata.word_count svc.links_per_1k_words + 2) :=
      List.mem_of_mem_take hp
    obtain ⟨hpp, hne2⟩ := find_relevant_posts_mem hp2
    exact ⟨p, hpp, ht, hne2⟩

theorem linkMem_artC3 :
    (⟨chars "Zebra Guide", chars "u", chars "zebra guide"⟩ : LinkRec) ∈
      (add_cross_links f100 dftLinker artC3 [pZebra]).internal_links := by
  rw [add_cross_links_eval f100 dftLinker artC3 [pZebra] 7 (by decide)
    (by exact targetLinksCount_2000)]
  decide

/-- C8 witness: the inserted link of the concrete run originates from a post
whose title differs case-insensitively from the article title. -/
theorem cross_linker_excludes_self_posts_witness :
    ∃ p, p ∈ [pZebra] ∧
      (⟨chars "Zebra Guide", chars "u", chars "zebra guide"⟩ : LinkRec).title = p.title ∧
      lowerStr p.title ≠ lowerStr artC3.metadata.title :=
  (cross_linker_excludes_self_posts f100 dftLinker artC3 [pZebra] 9).2 (by decide) _
    linkMem_artC3

/-- C10: `add_cross_links` changes only the `content` and `internal_links`
fields — `metadata`, `images`, `cover_url` and `cover_alt` are unchanged — and
the output content arises from the input content by a sequence of single link
insertions, each replacing one in-bounds span by `[span](url)` while leaving
every character outside the span unchanged, and each invertible: deleting the
inserted markup (`mdRemove`) recovers the previous content exactly. -/
theorem add_cross_links_frame (f : List Char → List Char → ℚ)
    (svc : CrossLinkerService) (article : Article) (posts : List ExistingPost) :
    (add_cross_links f svc article posts).metadata = article.metadata ∧
      (add_cross_links f svc article posts).images = article.images ∧
      (add_cross_links f svc article posts).cover_url = article.cover_url ∧
      (add_cross_links f svc article posts).cover_alt = article.cover_alt ∧
      Relation.ReflTransGen LinkInsertionStep article.content
        (add_cross_links f svc article posts).content := by
  by_cases hne : posts = []
  · subst hne
    rw [add_cross_links, if_pos rfl]
    exact ⟨rfl, rfl, rfl, rfl, Relation.ReflTransGen.refl⟩
  · rw [add_cross_links, if_neg hne]
    exact ⟨rfl, rfl, rfl, rfl, insert_links_chain _ article.content⟩
